import Mathlib

/-!
# Verification of the Code Shelf inventory and circulation engine

Shallow embedding of `src/main.py` (classes `Book`, `LinkedList`, `Stack`,
`Queue`, `HashTable`, `BorrowRecord`, `WaitlistEntry`, `CodeShelfLibrary`).

Python objects are mutable and shared between structures (the linked-list
registry and the hash table hold references to the same `Book`; the history
stack and the open-loan dictionary hold references to the same
`BorrowRecord`).  We therefore model the object heap explicitly: books live
in `heap : List Book` and are referred to by their index, borrow records
live in `events : List BorrowRecord` and are referred to by their index.
Python's builtin `hash` is an unspecified deterministic function of the
string; the whole development is parameterised by it (`hashFn`).
`datetime.now()` is modelled by a logical clock stamped from the state.
-/

namespace CodeShelf

/-- Model of class `Book` (src/main.py lines 13-27).  `__init__` sets
`is_borrowed = False`, `borrowed_by = None`, `borrow_date = None`. -/
structure Book where
  book_id : String
  title : String
  author : String
  year : Int
  is_borrowed : Bool
  borrowed_by : Option String
  borrow_date : Option Nat
deriving DecidableEq

/-- Constructor `Book.__init__`: a fresh book is available. -/
def mkBook (book_id title author : String) (year : Int) : Book :=
  ⟨book_id, title, author, year, false, none, none⟩

def defBook : Book := mkBook "" "" "" 0

/-- Dereference a book reference (heap index). -/
def bookAt (h : List Book) (r : Nat) : Book := h.getD r defBook

/-- Model of class `BorrowRecord` (lines 237-247): it holds a reference to
the borrowed `Book` (here: the heap index), and a mutable `return_date`
initially `None`. -/
structure BorrowRecord where
  bookRef : Nat
  borrower : String
  borrow_date : Nat
  return_date : Option Nat
deriving DecidableEq

def defEvent : BorrowRecord := ⟨0, "", 0, none⟩

/-- Dereference an event reference (index into the event heap). -/
def eventAt (es : List BorrowRecord) (j : Nat) : BorrowRecord := es.getD j defEvent

/-- Model of class `WaitlistEntry` (lines 249-258). -/
structure WaitlistEntry where
  book_id : String
  user_name : String
  request_date : Nat
deriving DecidableEq

/-! ## LinkedList (lines 36-130)

The linked list of `Book` nodes is modelled as the list of heap references
of its nodes' `data` fields, head first. -/

/-- Method `LinkedList.add_book` (lines 43-53): appends a node at the tail. -/
def llAddBook (reg : List Nat) (r : Nat) : List Nat := reg ++ [r]

/-- Method `LinkedList.remove_book` (lines 55-72): unlinks the first node whose
book's id matches, returning whether a node was removed. -/
def llRemoveBook (h : List Book) : List Nat → String → Bool × List Nat
  | [], _ => (false, [])
  | r :: rest, book_id =>
    if (bookAt h r).book_id = book_id then (true, rest)
    else
      let p := llRemoveBook h rest book_id
      (p.1, r :: p.2)

/-- Method `LinkedList.search_by_id` (lines 84-91): returns the first node's book
whose id matches (here: its heap reference), else `None`. -/
def llSearchById (h : List Book) (reg : List Nat) (book_id : String) : Option Nat :=
  reg.find? (fun r => (bookAt h r).book_id == book_id)

/-- Case-folded title key used by `LinkedList.sort_by_title` (line 109:
`key=lambda x: x.title.lower()`). -/
def titleKey (h : List Book) (r : Nat) : String := (bookAt h r).title.toLower

/-- Case-folded author key used by `LinkedList.sort_by_author` (line 124). -/
def authorKey (h : List Book) (r : Nat) : String := (bookAt h r).author.toLower

/-- Method `LinkedList.sort_by_title` (lines 102-115): returns unchanged on lists
of length ≤ 1 (the `not head or not head.next` guard), else rebuilds the
list in the order produced by Python's `list.sort`, a stable sort on the
case-folded key.  Stable sorts with respect to a total preorder agree on
every input, so `List.mergeSort` (stable) is an exact model of Timsort's
observable behaviour. -/
def sortByTitle (h : List Book) (reg : List Nat) : List Nat :=
  if reg.length ≤ 1 then reg
  else reg.mergeSort (fun r₁ r₂ => decide (titleKey h r₁ ≤ titleKey h r₂))

/-- Method `LinkedList.sort_by_author` (lines 117-130). -/
def sortByAuthor (h : List Book) (reg : List Nat) : List Nat :=
  if reg.length ≤ 1 then reg
  else reg.mergeSort (fun r₁ r₂ => decide (authorKey h r₁ ≤ authorKey h r₂))

/-! ## HashTable (lines 200-235)

`HashTable(size=100)`: an array of 100 buckets, each a list of `[key, value]`
pairs; values are book references.  `_hash(key) = hash(key) % size` with
Python's builtin `hash` modelled by the parameter `hashFn`. -/

def htSize : Nat := 100

/-- Method `HashTable._hash` (lines 207-209). -/
def hashIdx (hashFn : String → Nat) (k : String) : Nat := hashFn k % htSize

/-- Constructor `HashTable.__init__` (lines 203-205). -/
def htEmpty : List (List (String × Nat)) := List.replicate htSize []

/-- Bucket scan of `HashTable.insert` (lines 211-218): overwrite the value of
the first pair with the given key, else append the new pair. -/
def bucketInsert : List (String × Nat) → String → Nat → List (String × Nat)
  | [], k, v => [(k, v)]
  | (k', v') :: rest, k, v =>
    if k' = k then (k', v) :: rest else (k', v') :: bucketInsert rest k v

/-- Bucket scan of `HashTable.get` (lines 220-226): value of the first pair
with the given key, else `None`. -/
def bucketLookup : List (String × Nat) → String → Option Nat
  | [], _ => none
  | (k', v') :: rest, k => if k' = k then some v' else bucketLookup rest k

/-- Bucket scan of `HashTable.delete` (lines 228-235): remove the first pair
with the given key. -/
def bucketDelete : List (String × Nat) → String → List (String × Nat)
  | [], _ => []
  | (k', v') :: rest, k =>
    if k' = k then rest else (k', v') :: bucketDelete rest k

/-- Method `HashTable.insert` (lines 211-218). -/
def htInsert (hashFn : String → Nat) (t : List (List (String × Nat))) (k : String) (v : Nat) :
    List (List (String × Nat)) :=
  t.set (hashIdx hashFn k) (bucketInsert (t.getD (hashIdx hashFn k) []) k v)

/-- Method `HashTable.get` (lines 220-226). -/
def htGet (hashFn : String → Nat) (t : List (List (String × Nat))) (k : String) : Option Nat :=
  bucketLookup (t.getD (hashIdx hashFn k) []) k

/-- Method `HashTable.delete` (lines 228-235). -/
def htDelete (hashFn : String → Nat) (t : List (List (String × Nat))) (k : String) :
    List (List (String × Nat)) :=
  t.set (hashIdx hashFn k) (bucketDelete (t.getD (hashIdx hashFn k) []) k)

/-! ## The open-loan dictionary `borrowed_books` (line 268)

A Python `dict` from book id to the open `BorrowRecord` (here: its event
reference), insertion-ordered. -/

def dictGet (d : List (String × Nat)) (k : String) : Option Nat :=
  (d.find? (fun p => p.1 == k)).map (fun p => p.2)

/-- Assignment `d[k] = v`: overwrite in place if present, else append. -/
def dictSet : List (String × Nat) → String → Nat → List (String × Nat)
  | [], k, v => [(k, v)]
  | (k', v') :: rest, k, v =>
    if k' = k then (k', v) :: rest else (k', v') :: dictSet rest k v

/-- Statement `del d[k]`: remove the entry with the given key. -/
def dictDelete : List (String × Nat) → String → List (String × Nat)
  | [], _ => []
  | (k', v') :: rest, k =>
    if k' = k then rest else (k', v') :: dictDelete rest k

/-! ## Waitlist scan of `return_book` (lines 339-354)

`while not waitlist.is_empty(): entry = dequeue(); if entry.book_id ==
book_id and not found_waiting: found_waiting = entry else:
temp_queue.enqueue(entry)` followed by re-enqueuing `temp_queue` into the
(now empty) waitlist.  `found` and `acc` are `found_waiting` and
`temp_queue`. -/
def scanLoop (book_id : String) :
    List WaitlistEntry → Option WaitlistEntry → List WaitlistEntry →
    Option WaitlistEntry × List WaitlistEntry
  | [], found, acc => (found, acc)
  | e :: rest, found, acc =>
    if e.book_id = book_id ∧ found = none then scanLoop book_id rest (some e) acc
    else scanLoop book_id rest found (acc ++ [e])

/-! ## CodeShelfLibrary (lines 260-419) -/

/-- The engine state: `books` (registry of heap references), the borrow
history stack (`items` in push order, as event references), the waitlist
queue (`items`, front first), the hash table and the open-loan dictionary
(`CodeShelfLibrary.__init__`, lines 263-268), plus the object heaps and the
logical clock. -/
structure LibState where
  heap : List Book
  registry : List Nat
  table : List (List (String × Nat))
  events : List BorrowRecord
  borrow_history : List Nat
  waitlist : List WaitlistEntry
  borrowed_books : List (String × Nat)
  clock : Nat
deriving DecidableEq

/-- Constructor `CodeShelfLibrary.__init__` (lines 263-268). -/
def emptyLib : LibState := ⟨[], [], htEmpty, [], [], [], [], 0⟩

/-- Method `CodeShelfLibrary.add_book` (lines 270-278): rejected if the registry
scan finds the id; else a fresh `Book` is allocated and inserted into both
the linked list and the hash table. -/
def add_book (hashFn : String → Nat) (book_id title author : String) (year : Int)
    (s : LibState) : Bool × LibState :=
  match llSearchById s.heap s.registry book_id with
  | some _ => (false, s)
  | none =>
    let r := s.heap.length
    (true, { s with
      heap := s.heap ++ [mkBook book_id title author year],
      registry := llAddBook s.registry r,
      table := htInsert hashFn s.table book_id r })

/-- Method `CodeShelfLibrary.remove_book` (lines 280-291): rejected if absent or
borrowed; else deleted from both the linked list and the hash table. -/
def remove_book (hashFn : String → Nat) (book_id : String) (s : LibState) : Bool × LibState :=
  match llSearchById s.heap s.registry book_id with
  | none => (false, s)
  | some r =>
    if (bookAt s.heap r).is_borrowed then (false, s)
    else
      (true, { s with
        registry := (llRemoveBook s.heap s.registry book_id).2,
        table := htDelete hashFn s.table book_id })

/-- Method `CodeShelfLibrary.search_by_id` (lines 297-299): hash-table lookup. -/
def search_by_id (hashFn : String → Nat) (s : LibState) (book_id : String) : Option Nat :=
  htGet hashFn s.table book_id

/-- Method `CodeShelfLibrary.borrow_book` (lines 301-322): `False` if absent;
if already borrowed, a `WaitlistEntry` is enqueued and `False` returned;
else the book is marked borrowed, a `BorrowRecord` is pushed onto the
history stack and recorded in `borrowed_books`. -/
def borrow_book (hashFn : String → Nat) (book_id borrower : String) (s : LibState) :
    Bool × LibState :=
  match htGet hashFn s.table book_id with
  | none => (false, s)
  | some r =>
    if (bookAt s.heap r).is_borrowed then
      (false, { s with
        waitlist := s.waitlist ++ [⟨book_id, borrower, s.clock⟩],
        clock := s.clock + 1 })
    else
      (true, { s with
        heap := s.heap.set r { bookAt s.heap r with
          is_borrowed := true, borrowed_by := some borrower, borrow_date := some s.clock },
        events := s.events ++ [⟨r, borrower, s.clock, none⟩],
        borrow_history := s.borrow_history ++ [s.events.length],
        borrowed_books := dictSet s.borrowed_books book_id s.events.length,
        clock := s.clock + 1 })

/-- Method `CodeShelfLibrary.return_book` (lines 324-359): `False` if absent or not
borrowed; else the book is marked available, the open `BorrowRecord` (if
tracked in `borrowed_books`) gets its `return_date` set and is dropped from
`borrowed_books`, and the waitlist is scanned (lines 339-354). -/
def return_book (hashFn : String → Nat) (book_id : String) (s : LibState) : Bool × LibState :=
  match htGet hashFn s.table book_id with
  | none => (false, s)
  | some r =>
    if !(bookAt s.heap r).is_borrowed then (false, s)
    else
      let heap' := s.heap.set r { bookAt s.heap r with
        is_borrowed := false, borrowed_by := none, borrow_date := none }
      let p : List BorrowRecord × List (String × Nat) :=
        match dictGet s.borrowed_books book_id with
        | some j =>
          (s.events.set j { eventAt s.events j with return_date := some s.clock },
           dictDelete s.borrowed_books book_id)
        | none => (s.events, s.borrowed_books)
      let waitlist' :=
        if s.waitlist.isEmpty then s.waitlist else (scanLoop book_id s.waitlist none []).2
      (true, { s with
        heap := heap', events := p.1, borrowed_books := p.2,
        waitlist := waitlist', clock := s.clock + 1 })

/-- Method `CodeShelfLibrary.display_all_books` (lines 361-384): sorts the registry
in place by the requested key before printing; printing itself has no state
effect. -/
def display_all_books (sort_by : String) (s : LibState) : LibState :=
  if sort_by.toLower = "title" then { s with registry := sortByTitle s.heap s.registry }
  else if sort_by.toLower = "author" then { s with registry := sortByAuthor s.heap s.registry }
  else s

/-- Method `CodeShelfLibrary.display_borrow_history` (lines 386-401): iterates
`reversed(self.borrow_history.get_all_items())`, i.e. the pushed records
most-recent-first. -/
def historySnapshot (s : LibState) : List BorrowRecord :=
  (s.borrow_history.map (fun j => eventAt s.events j)).reverse

/-- The engine operations of the public mutating interface. -/
inductive Op where
  | add (book_id title author : String) (year : Int)
  | remove (book_id : String)
  | borrow (book_id borrower : String)
  | ret (book_id : String)
  | display (sort_by : String)
deriving DecidableEq

/-- One engine call. -/
def step (hashFn : String → Nat) (op : Op) (s : LibState) : LibState :=
  match op with
  | .add book_id title author year => (add_book hashFn book_id title author year s).2
  | .remove book_id => (remove_book hashFn book_id s).2
  | .borrow book_id borrower => (borrow_book hashFn book_id borrower s).2
  | .ret book_id => (return_book hashFn book_id s).2
  | .display sort_by => display_all_books sort_by s

/-- Run a sequence of engine operations from a given state. -/
def runFrom (hashFn : String → Nat) (s : LibState) (ops : List Op) : LibState :=
  ops.foldl (fun s op => step hashFn op s) s

/-- Run a sequence of engine operations from the empty library. -/
def run (hashFn : String → Nat) (ops : List Op) : LibState :=
  runFrom hashFn emptyLib ops

/-- Number of open borrow events for a given id in the history stack. -/
def openEventsFor (s : LibState) (book_id : String) : Nat :=
  s.borrow_history.countP (fun j =>
    (eventAt s.events j).return_date == none &&
      (bookAt s.heap (eventAt s.events j).bookRef).book_id == book_id)

/-- A concrete hash function used to instantiate witnesses. -/
def hashFn0 : String → Nat := fun _ => 0

/-- Well-formedness of the bucket array: 100 buckets, every pair sits in the
bucket its key hashes to, and keys are unique within a bucket. -/
structure HTInv (hashFn : String → Nat) (t : List (List (String × Nat))) : Prop where
  len : t.length = htSize
  hash_ok : ∀ i : Nat, ∀ p ∈ t.getD i [], hashIdx hashFn p.1 = i
  keys_nodup : ∀ i : Nat, ((t.getD i []).map Prod.fst).Nodup

/-- Abstraction of the table as a relation between keys and references. -/
def htMem (hashFn : String → Nat) (t : List (List (String × Nat))) (k : String) (r : Nat) :
    Prop :=
  (k, r) ∈ t.getD (hashIdx hashFn k) []

/-- Invariant maintained by every engine operation:
dual-structure consistency between registry and hash table (`tbl_reg`),
unique ids in the registry (`ids_nodup`), and the open-loan bookkeeping
tying `borrowed_books`, the event heap, the history stack and the
`is_borrowed` flags together. -/
structure Inv (hashFn : String → Nat) (s : LibState) : Prop where
  reg_lt : ∀ r ∈ s.registry, r < s.heap.length
  ids_nodup : (s.registry.map (fun r => (bookAt s.heap r).book_id)).Nodup
  ht : HTInv hashFn s.table
  tbl_reg : ∀ k r, htMem hashFn s.table k r ↔
    (r ∈ s.registry ∧ (bookAt s.heap r).book_id = k)
  bb_open : ∀ p ∈ s.borrowed_books,
    p.2 < s.events.length ∧
    (eventAt s.events p.2).return_date = none ∧
    (eventAt s.events p.2).bookRef ∈ s.registry ∧
    (bookAt s.heap (eventAt s.events p.2).bookRef).book_id = p.1 ∧
    (bookAt s.heap (eventAt s.events p.2).bookRef).is_borrowed = true
  bb_nodup : (s.borrowed_books.map Prod.fst).Nodup
  borrowed_bb : ∀ r ∈ s.registry, (bookAt s.heap r).is_borrowed = true →
    ∃ e, ((bookAt s.heap r).book_id, e) ∈ s.borrowed_books
  open_bb : ∀ j, j < s.events.length → (eventAt s.events j).return_date = none →
    ((bookAt s.heap (eventAt s.events j).bookRef).book_id, j) ∈ s.borrowed_books
  hist : s.borrow_history = List.range s.events.length

/-- Forget the hash table (the only state component that depends on the
hash function). -/
def eraseTable (s : LibState) : LibState := { s with table := htEmpty }

def sortWitnessHeap : List Book :=
  [⟨"1", "b", "y", 1, false, none, none⟩, ⟨"2", "b", "y", 2, false, none, none⟩]

def c3ops : List Op := [.add "A" "t" "a" 1, .borrow "A" "u1"]

def c9ops : List Op :=
  [.add "A" "tA" "aA" 1, .add "B" "tB" "aB" 2, .borrow "A" "u1", .borrow "B" "u2", .ret "A"]

end CodeShelf

/-! ## Helper lemmas: heap dereferencing -/

namespace CodeShelf

theorem bookAt_append_left {h : List Book} {l : List Book} {r : Nat} (hr : r < h.length) :
    bookAt (h ++ l) r = bookAt h r := by
  simp [bookAt, List.getElem?_append_left hr]

theorem bookAt_concat_self (h : List Book) (b : Book) :
    bookAt (h ++ [b]) h.length = b := by
  simp [bookAt, List.getElem?_concat_length]

theorem bookAt_set_self {h : List Book} {r : Nat} (hr : r < h.length) (b : Book) :
    bookAt (h.set r b) r = b := by
  simp [bookAt, List.getElem?_set_self hr]

theorem bookAt_set_ne {h : List Book} {r r' : Nat} (hne : r ≠ r') (b : Book) :
    bookAt (h.set r b) r' = bookAt h r' := by
  simp [bookAt, List.getElem?_set_ne hne]

theorem eventAt_append_left {es l : List BorrowRecord} {j : Nat} (hj : j < es.length) :
    eventAt (es ++ l) j = eventAt es j := by
  simp [eventAt, List.getElem?_append_left hj]

theorem eventAt_concat_self (es : List BorrowRecord) (e : BorrowRecord) :
    eventAt (es ++ [e]) es.length = e := by
  simp [eventAt, List.getElem?_concat_length]

theorem eventAt_set_self {es : List BorrowRecord} {j : Nat} (hj : j < es.length)
    (e : BorrowRecord) : eventAt (es.set j e) j = e := by
  simp [eventAt, List.getElem?_set_self hj]

theorem eventAt_set_ne {es : List BorrowRecord} {j j' : Nat} (hne : j ≠ j') (e : BorrowRecord) :
    eventAt (es.set j e) j' = eventAt es j' := by
  simp [eventAt, List.getElem?_set_ne hne]

/-! ## Helper lemmas: buckets and dictionaries -/


theorem bucketLookup_eq_none {b : List (String × Nat)} {k : String} :
    bucketLookup b k = none ↔ ∀ r, (k, r) ∉ b := by
  induction b with
  | nil => simp [bucketLookup]
  | cons p rest ih =>
    obtain ⟨k₀, v₀⟩ := p
    by_cases hk : k₀ = k
    · subst hk
      constructor
      · intro hcontra
        exact absurd hcontra (by simp [bucketLookup])
      · intro hall
        exact absurd (List.mem_cons_self _ _) (hall v₀)
    · have hstep : bucketLookup ((k₀, v₀) :: rest) k = bucketLookup rest k := by
        simp [bucketLookup, hk]
      rw [hstep, ih]
      constructor
      · intro hall r
        simp only [List.mem_cons, not_or]
        exact ⟨fun hcontra => hk (congrArg Prod.fst hcontra).symm, hall r⟩
      · intro hall r hr
        exact hall r (List.mem_cons_of_mem _ hr)

theorem bucketLookup_eq_some {b : List (String × Nat)} (hnd : (b.map Prod.fst).Nodup)
    {k : String} {r : Nat} : bucketLookup b k = some r ↔ (k, r) ∈ b := by
  induction b with
  | nil => simp [bucketLookup]
  | cons p rest ih =>
    obtain ⟨k₀, v₀⟩ := p
    simp only [List.map_cons, List.nodup_cons] at hnd
    by_cases hk : k₀ = k
    · subst hk
      have hstep : bucketLookup ((k₀, v₀) :: rest) k₀ = some v₀ := by
        simp [bucketLookup]
      rw [hstep]
      constructor
      · intro hv
        rw [Option.some_inj] at hv
        subst hv
        exact List.mem_cons_self _ _
      · intro hmem
        rcases List.mem_cons.1 hmem with hhead | htail
        · rw [Option.some_inj]
          exact (congrArg Prod.snd hhead).symm
        · exact absurd (List.mem_map_of_mem Prod.fst htail) hnd.1
    · have hstep : bucketLookup ((k₀, v₀) :: rest) k = bucketLookup rest k := by
        simp [bucketLookup, hk]
      rw [hstep, ih hnd.2]
      constructor
      · exact fun hmem => List.mem_cons_of_mem _ hmem
      · intro hmem
        rcases List.mem_cons.1 hmem with hhead | htail
        · exact absurd (congrArg Prod.fst hhead).symm hk
        · exact htail

theorem keys_bucketInsert (b : List (String × Nat)) (k : String) (v : Nat) :
    (bucketInsert b k v).map Prod.fst =
      if k ∈ b.map Prod.fst then b.map Prod.fst else b.map Prod.fst ++ [k] := by
  induction b with
  | nil => simp [bucketInsert]
  | cons p rest ih =>
    obtain ⟨k₀, v₀⟩ := p
    by_cases hk : k₀ = k
    · subst hk
      simp [bucketInsert]
    · have hne : ¬k = k₀ := fun hcontra => hk hcontra.symm
      simp only [bucketInsert, if_neg hk, List.map_cons, ih, List.mem_cons]
      by_cases hmem : k ∈ rest.map Prod.fst
      · simp [hmem, hne]
      · simp [hmem, hne]

theorem keysNodup_bucketInsert {b : List (String × Nat)} (hnd : (b.map Prod.fst).Nodup)
    (k : String) (v : Nat) : ((bucketInsert b k v).map Prod.fst).Nodup := by
  rw [keys_bucketInsert]
  by_cases hmem : k ∈ b.map Prod.fst
  · simpa [hmem]
  · simp only [hmem, if_false]
    simp [List.nodup_append, hnd, hmem]

theorem mem_bucketInsert {b : List (String × Nat)} (hnd : (b.map Prod.fst).Nodup)
    {k k' : String} {v r : Nat} :
    (k', r) ∈ bucketInsert b k v ↔ (k' = k ∧ r = v) ∨ (k' ≠ k ∧ (k', r) ∈ b) := by
  induction b with
  | nil =>
    simp only [bucketInsert, List.mem_singleton, Prod.mk.injEq, List.not_mem_nil, and_false,
      or_false]
  | cons p rest ih =>
    obtain ⟨k₀, v₀⟩ := p
    simp only [List.map_cons, List.nodup_cons] at hnd
    by_cases hk : k₀ = k
    · subst hk
      have hstep : bucketInsert ((k₀, v₀) :: rest) k₀ v = (k₀, v) :: rest := by
        simp [bucketInsert]
      rw [hstep]
      constructor
      · intro hmem
        rcases List.mem_cons.1 hmem with hhead | htail
        · exact Or.inl ⟨congrArg Prod.fst hhead, congrArg Prod.snd hhead⟩
        · have hne : k' ≠ k₀ := fun hcontra =>
            hnd.1 (hcontra ▸ List.mem_map_of_mem Prod.fst htail)
          exact Or.inr ⟨hne, List.mem_cons_of_mem _ htail⟩
      · rintro (⟨rfl, rfl⟩ | ⟨hne, hmem⟩)
        · exact List.mem_cons_self _ _
        · rcases List.mem_cons.1 hmem with hhead | htail
          · exact absurd (congrArg Prod.fst hhead) hne
          · exact List.mem_cons_of_mem _ htail
    · have hstep : bucketInsert ((k₀, v₀) :: rest) k v = (k₀, v₀) :: bucketInsert rest k v := by
        simp [bucketInsert, hk]
      rw [hstep]
      constructor
      · intro hmem
        rcases List.mem_cons.1 hmem with hhead | htail
        · refine Or.inr ⟨fun hcontra => hk ((congrArg Prod.fst hhead).symm.trans hcontra), ?_⟩
          · rw [hhead]; exact List.mem_cons_self _ _
        · rcases (ih hnd.2).1 htail with hl | ⟨hne, hmem'⟩
          · exact Or.inl hl
          · exact Or.inr ⟨hne, List.mem_cons_of_mem _ hmem'⟩
      · rintro (⟨rfl, rfl⟩ | ⟨hne, hmem⟩)
        · exact List.mem_cons_of_mem _ ((ih hnd.2).2 (Or.inl ⟨rfl, rfl⟩))
        · rcases List.mem_cons.1 hmem with hhead | htail
          · rw [hhead]; exact List.mem_cons_self _ _
          · exact List.mem_cons_of_mem _ ((ih hnd.2).2 (Or.inr ⟨hne, htail⟩))

theorem bucketDelete_sublist (b : List (String × Nat)) (k : String) :
    List.Sublist (bucketDelete b k) b := by
  induction b with
  | nil => simp [bucketDelete]
  | cons p rest ih =>
    obtain ⟨k₀, v₀⟩ := p
    by_cases hk : k₀ = k
    · simp [bucketDelete, hk, List.sublist_cons_self]
    · simpa [bucketDelete, hk] using ih.cons₂ (k₀, v₀)

theorem keysNodup_bucketDelete {b : List (String × Nat)} (hnd : (b.map Prod.fst).Nodup)
    (k : String) : ((bucketDelete b k).map Prod.fst).Nodup :=
  hnd.sublist ((bucketDelete_sublist b k).map Prod.fst)

theorem mem_bucketDelete {b : List (String × Nat)} (hnd : (b.map Prod.fst).Nodup)
    {k k' : String} {r : Nat} :
    (k', r) ∈ bucketDelete b k ↔ k' ≠ k ∧ (k', r) ∈ b := by
  induction b with
  | nil => simp [bucketDelete]
  | cons p rest ih =>
    obtain ⟨k₀, v₀⟩ := p
    simp only [List.map_cons, List.nodup_cons] at hnd
    by_cases hk : k₀ = k
    · subst hk
      have hstep : bucketDelete ((k₀, v₀) :: rest) k₀ = rest := by
        simp [bucketDelete]
      rw [hstep]
      constructor
      · intro hmem
        have hne : k' ≠ k₀ := fun hcontra =>
          hnd.1 (hcontra ▸ List.mem_map_of_mem Prod.fst hmem)
        exact ⟨hne, List.mem_cons_of_mem _ hmem⟩
      · rintro ⟨hne, hmem⟩
        rcases List.mem_cons.1 hmem with hhead | htail
        · exact absurd (congrArg Prod.fst hhead) hne
        · exact htail
    · have hstep : bucketDelete ((k₀, v₀) :: rest) k = (k₀, v₀) :: bucketDelete rest k := by
        simp [bucketDelete, hk]
      rw [hstep]
      constructor
      · intro hmem
        rcases List.mem_cons.1 hmem with hhead | htail
        · refine ⟨fun hcontra => hk ((congrArg Prod.fst hhead).symm.trans hcontra), ?_⟩
          · rw [hhead]; exact List.mem_cons_self _ _
        · obtain ⟨hne, hmem'⟩ := (ih hnd.2).1 htail
          exact ⟨hne, List.mem_cons_of_mem _ hmem'⟩
      · rintro ⟨hne, hmem⟩
        rcases List.mem_cons.1 hmem with hhead | htail
        · rw [hhead]; exact List.mem_cons_self _ _
        · exact List.mem_cons_of_mem _ ((ih hnd.2).2 ⟨hne, htail⟩)

theorem dictGet_eq_bucketLookup (d : List (String × Nat)) (k : String) :
    dictGet d k = bucketLookup d k := by
  induction d with
  | nil => simp [dictGet, bucketLookup]
  | cons p rest ih =>
    obtain ⟨k₀, v₀⟩ := p
    by_cases hk : k₀ = k
    · simp [dictGet, bucketLookup, hk]
    · simpa [dictGet, bucketLookup, hk] using ih

theorem dictSet_eq_bucketInsert (d : List (String × Nat)) (k : String) (v : Nat) :
    dictSet d k v = bucketInsert d k v := by
  induction d with
  | nil => rfl
  | cons p rest ih =>
    obtain ⟨k₀, v₀⟩ := p
    by_cases hk : k₀ = k <;> simp [dictSet, bucketInsert, hk, ih]

theorem dictDelete_eq_bucketDelete (d : List (String × Nat)) (k : String) :
    dictDelete d k = bucketDelete d k := by
  induction d with
  | nil => rfl
  | cons p rest ih =>
    obtain ⟨k₀, v₀⟩ := p
    by_cases hk : k₀ = k <;> simp [dictDelete, bucketDelete, hk, ih]

theorem dictSet_of_not_mem {d : List (String × Nat)} {k : String}
    (hk : k ∉ d.map Prod.fst) (v : Nat) : dictSet d k v = d ++ [(k, v)] := by
  induction d with
  | nil => rfl
  | cons p rest ih =>
    obtain ⟨k₀, v₀⟩ := p
    simp only [List.map_cons, List.mem_cons, not_or] at hk
    have hne : k₀ ≠ k := fun hcontra => hk.1 hcontra.symm
    simp [dictSet, hne, ih hk.2]

end CodeShelf

/-! ## Helper lemmas: the hash table -/

namespace CodeShelf

theorem hashIdx_lt (hashFn : String → Nat) (k : String) : hashIdx hashFn k < htSize :=
  Nat.mod_lt _ (by simp [htSize])

theorem htEmpty_getD (i : Nat) : htEmpty.getD i [] = [] := by
  simp only [htEmpty, List.getD_eq_getElem?_getD, List.getElem?_replicate]
  by_cases hi : i < htSize <;> simp [hi]

theorem htInv_empty (hashFn : String → Nat) : HTInv hashFn htEmpty := by
  refine ⟨by simp [htEmpty], ?_, ?_⟩
  · intro i p hp
    rw [htEmpty_getD] at hp
    exact absurd hp (List.not_mem_nil p)
  · intro i
    rw [htEmpty_getD]
    simp

theorem htMem_empty (hashFn : String → Nat) (k : String) (r : Nat) :
    ¬htMem hashFn htEmpty k r := by
  unfold htMem
  rw [htEmpty_getD]
  simp

theorem htGet_eq_some {hashFn : String → Nat} {t : List (List (String × Nat))}
    (hInv : HTInv hashFn t) {k : String} {r : Nat} :
    htGet hashFn t k = some r ↔ htMem hashFn t k r :=
  bucketLookup_eq_some (hInv.keys_nodup _)

theorem htGet_eq_none {hashFn : String → Nat} {t : List (List (String × Nat))}
    {k : String} : htGet hashFn t k = none ↔ ∀ r, ¬htMem hashFn t k r :=
  bucketLookup_eq_none

/-- Bucket of the updated table. -/
theorem getD_set_bucket {t : List (List (String × Nat))} {i : Nat}
    (hi : i < t.length) (b : List (String × Nat)) (j : Nat) :
    (t.set i b).getD j [] = if i = j then b else t.getD j [] := by
  by_cases hij : i = j
  · subst hij
    simp [List.getD_eq_getElem?_getD, List.getElem?_set_self hi]
  · simp [List.getD_eq_getElem?_getD, List.getElem?_set_ne hij, hij]

theorem htInsert_inv {hashFn : String → Nat} {t : List (List (String × Nat))}
    (hInv : HTInv hashFn t) (k : String) (v : Nat) :
    HTInv hashFn (htInsert hashFn t k v) := by
  have hlt : hashIdx hashFn k < t.length := hInv.len ▸ hashIdx_lt hashFn k
  refine ⟨by simp [htInsert, hInv.len], ?_, ?_⟩
  · intro i p hp
    rw [htInsert, getD_set_bucket hlt] at hp
    by_cases hik : hashIdx hashFn k = i
    · rw [if_pos hik] at hp
      obtain ⟨k', r'⟩ := p
      rcases (mem_bucketInsert (hInv.keys_nodup _)).1 hp with ⟨rfl, -⟩ | ⟨-, hmem⟩
      · exact hik
      · exact (hInv.hash_ok _ _ hmem).trans hik
    · rw [if_neg hik] at hp
      exact hInv.hash_ok _ _ hp
  · intro i
    rw [htInsert, getD_set_bucket hlt]
    by_cases hik : hashIdx hashFn k = i
    · rw [if_pos hik]
      exact keysNodup_bucketInsert (hInv.keys_nodup _) k v
    · rw [if_neg hik]
      exact hInv.keys_nodup i

theorem htMem_insert {hashFn : String → Nat} {t : List (List (String × Nat))}
    (hInv : HTInv hashFn t) {k k' : String} {v r : Nat} :
    htMem hashFn (htInsert hashFn t k v) k' r ↔
      (k' = k ∧ r = v) ∨ (k' ≠ k ∧ htMem hashFn t k' r) := by
  have hlt : hashIdx hashFn k < t.length := hInv.len ▸ hashIdx_lt hashFn k
  unfold htMem
  rw [htInsert, getD_set_bucket hlt]
  by_cases hkk : hashIdx hashFn k = hashIdx hashFn k'
  · rw [if_pos hkk, mem_bucketInsert (hInv.keys_nodup _), hkk]
  · rw [if_neg hkk]
    have hne : k' ≠ k := fun hcontra => hkk (by rw [hcontra])
    constructor
    · exact fun hmem => Or.inr ⟨hne, hmem⟩
    · rintro (⟨rfl, -⟩ | ⟨-, hmem⟩)
      · exact absurd rfl hne
      · exact hmem

theorem htDelete_inv {hashFn : String → Nat} {t : List (List (String × Nat))}
    (hInv : HTInv hashFn t) (k : String) :
    HTInv hashFn (htDelete hashFn t k) := by
  have hlt : hashIdx hashFn k < t.length := hInv.len ▸ hashIdx_lt hashFn k
  refine ⟨by simp [htDelete, hInv.len], ?_, ?_⟩
  · intro i p hp
    rw [htDelete, getD_set_bucket hlt] at hp
    by_cases hik : hashIdx hashFn k = i
    · rw [if_pos hik] at hp
      obtain ⟨k', r'⟩ := p
      exact (hInv.hash_ok _ _ ((mem_bucketDelete (hInv.keys_nodup _)).1 hp).2).trans hik
    · rw [if_neg hik] at hp
      exact hInv.hash_ok _ _ hp
  · intro i
    rw [htDelete, getD_set_bucket hlt]
    by_cases hik : hashIdx hashFn k = i
    · rw [if_pos hik]
      exact keysNodup_bucketDelete (hInv.keys_nodup _) k
    · rw [if_neg hik]
      exact hInv.keys_nodup i

theorem htMem_delete {hashFn : String → Nat} {t : List (List (String × Nat))}
    (hInv : HTInv hashFn t) {k k' : String} {r : Nat} :
    htMem hashFn (htDelete hashFn t k) k' r ↔ k' ≠ k ∧ htMem hashFn t k' r := by
  have hlt : hashIdx hashFn k < t.length := hInv.len ▸ hashIdx_lt hashFn k
  unfold htMem
  rw [htDelete, getD_set_bucket hlt]
  by_cases hkk : hashIdx hashFn k = hashIdx hashFn k'
  · rw [if_pos hkk, mem_bucketDelete (hInv.keys_nodup _), hkk]
  · rw [if_neg hkk]
    have hne : k' ≠ k := fun hcontra => hkk (by rw [hcontra])
    exact ⟨fun hmem => ⟨hne, hmem⟩, fun hp => hp.2⟩

/-! ## Helper lemmas: the linked list -/

theorem llSearchById_eq_none {h : List Book} {reg : List Nat} {book_id : String} :
    llSearchById h reg book_id = none ↔ ∀ r ∈ reg, (bookAt h r).book_id ≠ book_id := by
  simp [llSearchById, List.find?_eq_none]

theorem llSearchById_mem {h : List Book} {reg : List Nat} {book_id : String} {r : Nat}
    (hfind : llSearchById h reg book_id = some r) : r ∈ reg :=
  List.mem_of_find?_eq_some hfind

theorem llSearchById_id {h : List Book} {reg : List Nat} {book_id : String} {r : Nat}
    (hfind : llSearchById h reg book_id = some r) : (bookAt h r).book_id = book_id := by
  have := List.find?_some hfind
  simpa using this

theorem llSearchById_decomp {h : List Book} {reg : List Nat} {book_id : String} {r : Nat}
    (hfind : llSearchById h reg book_id = some r) :
    ∃ l₁ l₂, reg = l₁ ++ r :: l₂ ∧ ∀ x ∈ l₁, (bookAt h x).book_id ≠ book_id := by
  rw [llSearchById, List.find?_eq_some] at hfind
  obtain ⟨-, l₁, l₂, hsplit, hno⟩ := hfind
  refine ⟨l₁, l₂, hsplit, fun x hx => ?_⟩
  have := hno x hx
  simpa using this

theorem llSearchById_eq_some_of_nodup {h : List Book} {reg : List Nat} {book_id : String}
    {r : Nat} (hnd : (reg.map (fun x => (bookAt h x).book_id)).Nodup)
    (hmem : r ∈ reg) (hid : (bookAt h r).book_id = book_id) :
    llSearchById h reg book_id = some r := by
  have hsome : (reg.find? (fun x => (bookAt h x).book_id == book_id)).isSome := by
    rw [List.find?_isSome]
    exact ⟨r, hmem, by simp [hid]⟩
  obtain ⟨r', hr'⟩ := Option.isSome_iff_exists.1 hsome
  have hmem' : r' ∈ reg := List.mem_of_find?_eq_some hr'
  have hid' : (bookAt h r').book_id = book_id := by
    have := List.find?_some hr'
    simpa using this
  have : r' = r :=
    List.inj_on_of_nodup_map hnd hmem' hmem (by rw [hid', hid])
  rw [llSearchById, hr', this]

theorem llRemoveBook_decomp (h : List Book) (book_id : String) (l₁ : List Nat) (r : Nat)
    (l₂ : List Nat) (hno : ∀ x ∈ l₁, (bookAt h x).book_id ≠ book_id)
    (hid : (bookAt h r).book_id = book_id) :
    llRemoveBook h (l₁ ++ r :: l₂) book_id = (true, l₁ ++ l₂) := by
  induction l₁ with
  | nil => simp [llRemoveBook, hid]
  | cons x rest ih =>
    have hx : (bookAt h x).book_id ≠ book_id := hno x (List.mem_cons_self _ _)
    have hrest : ∀ y ∈ rest, (bookAt h y).book_id ≠ book_id :=
      fun y hy => hno y (List.mem_cons_of_mem _ hy)
    simp [llRemoveBook, hx, ih hrest]

/-! ## Helper lemmas: the waitlist scan -/

theorem scanLoop_found (book_id : String) (q : List WaitlistEntry) (e : WaitlistEntry)
    (acc : List WaitlistEntry) : scanLoop book_id q (some e) acc = (some e, acc ++ q) := by
  induction q generalizing acc with
  | nil => simp [scanLoop]
  | cons x rest ih =>
    have hcond : ¬(x.book_id = book_id ∧ (some e : Option WaitlistEntry) = none) := by
      rintro ⟨-, hcontra⟩
      exact Option.some_ne_none _ hcontra
    simp [scanLoop, hcond, ih]

theorem scanLoop_no_match (book_id : String) (q : List WaitlistEntry)
    (acc : List WaitlistEntry) (hno : ∀ x ∈ q, x.book_id ≠ book_id) :
    scanLoop book_id q none acc = (none, acc ++ q) := by
  induction q generalizing acc with
  | nil => simp [scanLoop]
  | cons x rest ih =>
    have hx : x.book_id ≠ book_id := hno x (List.mem_cons_self _ _)
    have hcond : ¬(x.book_id = book_id ∧ (none : Option WaitlistEntry) = none) := by
      rintro ⟨hcontra, -⟩
      exact hx hcontra
    have hrest : ∀ y ∈ rest, y.book_id ≠ book_id :=
      fun y hy => hno y (List.mem_cons_of_mem _ hy)
    rw [scanLoop, if_neg hcond, ih _ hrest]
    simp

theorem scanLoop_first_match (book_id : String) (l₁ : List WaitlistEntry) (e : WaitlistEntry)
    (l₂ acc : List WaitlistEntry) (hno : ∀ x ∈ l₁, x.book_id ≠ book_id)
    (he : e.book_id = book_id) :
    scanLoop book_id (l₁ ++ e :: l₂) none acc = (some e, acc ++ (l₁ ++ l₂)) := by
  induction l₁ generalizing acc with
  | nil =>
    simp only [List.nil_append]
    rw [scanLoop, if_pos ⟨he, rfl⟩, scanLoop_found]
  | cons x rest ih =>
    have hx : x.book_id ≠ book_id := hno x (List.mem_cons_self _ _)
    have hcond : ¬(x.book_id = book_id ∧ (none : Option WaitlistEntry) = none) := by
      rintro ⟨hcontra, -⟩
      exact hx hcontra
    have hrest : ∀ y ∈ rest, y.book_id ≠ book_id :=
      fun y hy => hno y (List.mem_cons_of_mem _ hy)
    rw [List.cons_append, scanLoop, if_neg hcond, ih _ hrest]
    simp

/-! ## Helper lemmas: sorting -/

theorem sortByTitle_perm (h : List Book) (reg : List Nat) :
    (sortByTitle h reg).Perm reg := by
  unfold sortByTitle
  by_cases hlen : reg.length ≤ 1
  · rw [if_pos hlen]
  · rw [if_neg hlen]
    exact List.mergeSort_perm reg _

theorem sortByAuthor_perm (h : List Book) (reg : List Nat) :
    (sortByAuthor h reg).Perm reg := by
  unfold sortByAuthor
  by_cases hlen : reg.length ≤ 1
  · rw [if_pos hlen]
  · rw [if_neg hlen]
    exact List.mergeSort_perm reg _

end CodeShelf

/-! ## The reachable-state invariant -/

namespace CodeShelf

theorem Inv.id_unique {hashFn : String → Nat} {s : LibState} (hInv : Inv hashFn s)
    {r r' : Nat} (hr : r ∈ s.registry) (hr' : r' ∈ s.registry)
    (hid : (bookAt s.heap r).book_id = (bookAt s.heap r').book_id) : r = r' :=
  List.inj_on_of_nodup_map hInv.ids_nodup hr hr' hid

/-- Keys of an association list with no duplicate keys determine values. -/
theorem assoc_val_unique {d : List (String × Nat)} (hnd : (d.map Prod.fst).Nodup)
    {k : String} {a b : Nat} (ha : (k, a) ∈ d) (hb : (k, b) ∈ d) : a = b := by
  have := List.inj_on_of_nodup_map hnd ha hb rfl
  exact congrArg Prod.snd this

theorem inv_empty (hashFn : String → Nat) : Inv hashFn emptyLib := by
  refine ⟨?_, ?_, htInv_empty hashFn, ?_, ?_, ?_, ?_, ?_, ?_⟩ <;>
    simp [emptyLib, htMem_empty]

theorem inv_add (hashFn : String → Nat) {s : LibState} (hInv : Inv hashFn s)
    (book_id title author : String) (year : Int) :
    Inv hashFn (add_book hashFn book_id title author year s).2 := by
  unfold add_book
  cases hfind : llSearchById s.heap s.registry book_id with
  | some r => exact hInv
  | none =>
    have hno : ∀ r ∈ s.registry, (bookAt s.heap r).book_id ≠ book_id :=
      llSearchById_eq_none.1 hfind
    set n := s.heap.length with hn
    set b := mkBook book_id title author year with hb
    -- facts about the extended heap
    have hAtOld : ∀ r ∈ s.registry, bookAt (s.heap ++ [b]) r = bookAt s.heap r :=
      fun r hr => bookAt_append_left (hInv.reg_lt r hr)
    have hAtNew : bookAt (s.heap ++ [b]) n = b := bookAt_concat_self s.heap b
    have hnotmem : n ∉ s.registry := fun hcontra =>
      Nat.lt_irrefl n (hInv.reg_lt n hcontra)
    refine ⟨?_, ?_, htInsert_inv hInv.ht book_id n, ?_, ?_, hInv.bb_nodup, ?_, ?_, ?_⟩
    · -- reg_lt
      intro r hr
      simp only [llAddBook, List.mem_append, List.mem_singleton] at hr
      simp only [List.length_append, List.length_singleton]
      rcases hr with hr | rfl
      · exact Nat.lt_succ_of_lt (hInv.reg_lt r hr)
      · exact Nat.lt_succ_self n
    · -- ids_nodup
      have hmap : (llAddBook s.registry n).map (fun r => (bookAt (s.heap ++ [b]) r).book_id) =
          s.registry.map (fun r => (bookAt s.heap r).book_id) ++ [book_id] := by
        unfold llAddBook
        rw [List.map_append]
        congr 1
        · exact List.map_congr_left (fun r hr => by rw [hAtOld r hr])
        · rw [List.map_singleton, hAtNew, hb]
          rfl
      rw [hmap]
      simp only [List.nodup_append, List.nodup_singleton, List.mem_singleton]
      refine ⟨hInv.ids_nodup, trivial, ?_⟩
      intro x hx
      obtain ⟨r, hr, rfl⟩ := List.mem_map.1 hx
      simp only [List.mem_singleton]
      exact hno r hr
    · -- tbl_reg
      intro k r
      rw [htMem_insert hInv.ht]
      constructor
      · rintro (⟨rfl, rfl⟩ | ⟨hne, hmem⟩)
        · refine ⟨by simp [llAddBook], ?_⟩
          rw [hAtNew, hb]
          rfl
        · obtain ⟨hreg, hid⟩ := (hInv.tbl_reg k r).1 hmem
          refine ⟨by simp [llAddBook, hreg], ?_⟩
          rw [hAtOld r hreg, hid]
      · rintro ⟨hreg, hid⟩
        simp only [llAddBook, List.mem_append, List.mem_singleton] at hreg
        rcases hreg with hreg | rfl
        · rw [hAtOld r hreg] at hid
          have hkne : k ≠ book_id := fun hcontra => hno r hreg (hid ▸ hcontra ▸ rfl)
          exact Or.inr ⟨hkne, (hInv.tbl_reg k r).2 ⟨hreg, hid⟩⟩
        · rw [hAtNew, hb] at hid
          exact Or.inl ⟨hid.symm ▸ rfl, rfl⟩
    · -- bb_open
      intro p hp
      obtain ⟨hlt, hopen, hreg, hid, hbor⟩ := hInv.bb_open p hp
      have hrefmem := hreg
      refine ⟨hlt, hopen, by simp [llAddBook, hreg], ?_, ?_⟩
      · rw [hAtOld _ hrefmem, hid]
      · rw [hAtOld _ hrefmem, hbor]
    · -- borrowed_bb
      intro r hr hbor
      simp only [llAddBook, List.mem_append, List.mem_singleton] at hr
      rcases hr with hr | rfl
      · rw [hAtOld r hr] at hbor ⊢
        exact hInv.borrowed_bb r hr hbor
      · rw [hAtNew] at hbor
        simp [hb, mkBook] at hbor
    · -- open_bb
      intro j hj hopen
      have hbmem := (hInv.bb_open _ (hInv.open_bb j hj hopen)).2.2.1
      rw [hAtOld _ hbmem]
      exact hInv.open_bb j hj hopen
    · -- hist
      exact hInv.hist

end CodeShelf

namespace CodeShelf

theorem inv_remove (hashFn : String → Nat) {s : LibState} (hInv : Inv hashFn s)
    (book_id : String) : Inv hashFn (remove_book hashFn book_id s).2 := by
  unfold remove_book
  cases hfind : llSearchById s.heap s.registry book_id with
  | none => exact hInv
  | some r₀ =>
    cases hbor : (bookAt s.heap r₀).is_borrowed with
    | true => simpa [hbor] using hInv
    | false =>
      simp only [hbor, Bool.false_eq_true, if_false]
      have hid : (bookAt s.heap r₀).book_id = book_id := llSearchById_id hfind
      obtain ⟨l₁, l₂, hsplit, hno₁⟩ := llSearchById_decomp hfind
      have hremove : (llRemoveBook s.heap s.registry book_id).2 = l₁ ++ l₂ := by
        rw [hsplit, llRemoveBook_decomp s.heap book_id l₁ r₀ l₂ hno₁ hid]
      have hnd := hInv.ids_nodup
      rw [hsplit, List.map_append, List.map_cons] at hnd
      have hno₂ : ∀ x ∈ l₂, (bookAt s.heap x).book_id ≠ book_id := by
        intro x hx hcontra
        have hmemmap : (bookAt s.heap r₀).book_id ∈
            l₂.map (fun r => (bookAt s.heap r).book_id) :=
          List.mem_map.2 ⟨x, hx, by rw [hcontra, hid]⟩
        exact (List.nodup_cons.1 (List.Nodup.of_append_right hnd)).1 hmemmap
      have hsub : List.Sublist (l₁ ++ l₂) s.registry := by
        rw [hsplit]
        exact List.Sublist.append_left (List.sublist_cons_self r₀ l₂) l₁
      have hmem_reg : ∀ x ∈ l₁ ++ l₂, x ∈ s.registry := fun x hx => hsub.mem hx
      have hno₁₂ : ∀ x ∈ l₁ ++ l₂, (bookAt s.heap x).book_id ≠ book_id := by
        intro x hx
        rcases List.mem_append.1 hx with hx | hx
        · exact hno₁ x hx
        · exact hno₂ x hx
      have hmem_reg' : ∀ x ∈ s.registry, x ≠ r₀ → x ∈ l₁ ++ l₂ := by
        intro x hx hne
        rw [hsplit] at hx
        rcases List.mem_append.1 hx with hx | hx
        · exact List.mem_append.2 (Or.inl hx)
        · rcases List.mem_cons.1 hx with rfl | hx
          · exact absurd rfl hne
          · exact List.mem_append.2 (Or.inr hx)
      refine ⟨?_, ?_, htDelete_inv hInv.ht book_id, ?_, ?_, hInv.bb_nodup, ?_, ?_, hInv.hist⟩
      · -- reg_lt
        intro r hr
        rw [hremove] at hr
        exact hInv.reg_lt r (hmem_reg r hr)
      · -- ids_nodup
        rw [hremove]
        exact hInv.ids_nodup.sublist (hsub.map _)
      · -- tbl_reg
        intro k r
        rw [htMem_delete hInv.ht, hremove]
        constructor
        · rintro ⟨hne, hmem⟩
          obtain ⟨hreg, hidr⟩ := (hInv.tbl_reg k r).1 hmem
          have hrne : r ≠ r₀ := by
            rintro rfl
            exact hne (hidr.symm.trans hid)
          exact ⟨hmem_reg' r hreg hrne, hidr⟩
        · rintro ⟨hreg, hidr⟩
          have hne : k ≠ book_id := by
            rintro rfl
            exact hno₁₂ r hreg hidr
          exact ⟨hne, (hInv.tbl_reg k r).2 ⟨hmem_reg r hreg, hidr⟩⟩
      · -- bb_open
        intro p hp
        obtain ⟨hlt, hopen, hreg, hidp, hborp⟩ := hInv.bb_open p hp
        have hrne : (eventAt s.events p.2).bookRef ≠ r₀ := by
          rintro hcontra
          rw [hcontra, hbor] at hborp
          exact Bool.false_ne_true hborp
        rw [hremove]
        exact ⟨hlt, hopen, hmem_reg' _ hreg hrne, hidp, hborp⟩
      · -- borrowed_bb
        intro r hr hborr
        rw [hremove] at hr
        exact hInv.borrowed_bb r (hmem_reg r hr) hborr
      · -- open_bb
        exact hInv.open_bb

end CodeShelf

namespace CodeShelf

theorem inv_borrow (hashFn : String → Nat) {s : LibState} (hInv : Inv hashFn s)
    (book_id borrower : String) : Inv hashFn (borrow_book hashFn book_id borrower s).2 := by
  unfold borrow_book
  cases hget : htGet hashFn s.table book_id with
  | none => exact hInv
  | some r =>
    obtain ⟨hreg, hid⟩ := (hInv.tbl_reg book_id r).1 ((htGet_eq_some hInv.ht).1 hget)
    cases hbor : (bookAt s.heap r).is_borrowed with
    | true =>
      simp only [hbor, if_true]
      exact ⟨hInv.reg_lt, hInv.ids_nodup, hInv.ht, hInv.tbl_reg, hInv.bb_open, hInv.bb_nodup,
        hInv.borrowed_bb, hInv.open_bb, hInv.hist⟩
    | false =>
      simp only [hbor, Bool.false_eq_true, if_false]
      have hr_lt : r < s.heap.length := hInv.reg_lt r hreg
      set b' : Book := { bookAt s.heap r with
        is_borrowed := true, borrowed_by := some borrower, borrow_date := some s.clock } with hb'
      set e : BorrowRecord := ⟨r, borrower, s.clock, none⟩ with he
      have hAtSelf : bookAt (s.heap.set r b') r = b' := bookAt_set_self hr_lt b'
      have hAtOther : ∀ x, x ≠ r → bookAt (s.heap.set r b') x = bookAt s.heap x :=
        fun x hx => bookAt_set_ne (Ne.symm hx) b'
      have hbid : ∀ x, (bookAt (s.heap.set r b') x).book_id = (bookAt s.heap x).book_id := by
        intro x
        by_cases hx : x = r
        · subst hx
          rw [hAtSelf]
        · rw [hAtOther x hx]
      have hfresh : book_id ∉ s.borrowed_books.map Prod.fst := by
        intro hcontra
        obtain ⟨p, hp, hpk⟩ := List.mem_map.1 hcontra
        obtain ⟨-, -, hpreg, hpid, hpbor⟩ := hInv.bb_open p hp
        have hpr : (eventAt s.events p.2).bookRef = r :=
          hInv.id_unique hpreg hreg (by rw [hpid, hpk, ← hid])
        rw [hpr, hbor] at hpbor
        exact Bool.false_ne_true hpbor
      have hbbset : dictSet s.borrowed_books book_id s.events.length =
          s.borrowed_books ++ [(book_id, s.events.length)] :=
        dictSet_of_not_mem hfresh _
      have hrefs_ne : ∀ p ∈ s.borrowed_books, (eventAt s.events p.2).bookRef ≠ r := by
        intro p hp hcontra
        have hpbor := (hInv.bb_open p hp).2.2.2.2
        rw [hcontra, hbor] at hpbor
        exact Bool.false_ne_true hpbor
      have hlen' : (s.events ++ [e]).length = s.events.length + 1 := by
        simp
      refine ⟨?_, ?_, hInv.ht, ?_, ?_, ?_, ?_, ?_, ?_⟩
      · -- reg_lt
        intro x hx
        rw [List.length_set]
        exact hInv.reg_lt x hx
      · -- ids_nodup
        have hmap : s.registry.map (fun x => (bookAt (s.heap.set r b') x).book_id) =
            s.registry.map (fun x => (bookAt s.heap x).book_id) :=
          List.map_congr_left (fun x _ => hbid x)
        rw [hmap]
        exact hInv.ids_nodup
      · -- tbl_reg
        intro k x
        rw [hInv.tbl_reg k x]
        constructor
        · rintro ⟨hxreg, hxid⟩
          exact ⟨hxreg, by rw [hbid x, hxid]⟩
        · rintro ⟨hxreg, hxid⟩
          rw [hbid x] at hxid
          exact ⟨hxreg, hxid⟩
      · -- bb_open
        intro p hp
        rw [hbbset] at hp
        rcases List.mem_append.1 hp with hp | hp
        · obtain ⟨hlt, hopen, hpreg, hpid, hpbor⟩ := hInv.bb_open p hp
          have hne := hrefs_ne p hp
          rw [eventAt_append_left hlt]
          refine ⟨by rw [hlen']; exact Nat.lt_succ_of_lt hlt, hopen, hpreg, ?_, ?_⟩
          · rw [hAtOther _ hne, hpid]
          · rw [hAtOther _ hne, hpbor]
        · rw [List.mem_singleton] at hp
          subst hp
          rw [eventAt_concat_self]
          have hebref : e.bookRef = r := rfl
          refine ⟨by rw [hlen']; exact Nat.lt_succ_self _, rfl, ?_, ?_, ?_⟩
          · rw [hebref]
            exact hreg
          · rw [hebref, hAtSelf, hb']
            exact hid
          · rw [hebref, hAtSelf, hb']
      · -- bb_nodup
        rw [hbbset, List.map_append]
        refine List.Nodup.append hInv.bb_nodup (List.nodup_singleton _) ?_
        intro a ha hb
        rw [List.map_singleton, List.mem_singleton] at hb
        subst hb
        exact hfresh ha
      · -- borrowed_bb
        intro x hx hborx
        by_cases hxr : x = r
        · subst hxr
          refine ⟨s.events.length, ?_⟩
          have hkey : (bookAt (s.heap.set x b') x).book_id = book_id := by
            rw [hbid x]
            exact hid
          rw [hkey, hbbset]
          exact List.mem_append.2 (Or.inr (List.mem_singleton.2 rfl))
        · rw [hAtOther x hxr] at hborx
          obtain ⟨e', he'⟩ := hInv.borrowed_bb x hx hborx
          refine ⟨e', ?_⟩
          rw [hAtOther x hxr, hbbset]
          exact List.mem_append.2 (Or.inl he')
      · -- open_bb
        intro j hj hopen
        rw [hlen'] at hj
        by_cases hjj : j = s.events.length
        · subst hjj
          rw [eventAt_concat_self] at hopen ⊢
          have hebref : e.bookRef = r := rfl
          have hkey : (bookAt (s.heap.set r b') e.bookRef).book_id = book_id := by
            rw [hebref, hAtSelf, hb']
            exact hid
          rw [hkey, hbbset]
          exact List.mem_append.2 (Or.inr (List.mem_singleton.2 rfl))
        · have hjlt : j < s.events.length := by omega
          rw [eventAt_append_left hjlt] at hopen ⊢
          have hmem := hInv.open_bb j hjlt hopen
          have hne := hrefs_ne _ hmem
          simp only at hne
          rw [hAtOther _ hne, hbbset]
          exact List.mem_append.2 (Or.inl hmem)
      · -- hist
        simp [hInv.hist, List.range_succ]

end CodeShelf

namespace CodeShelf

theorem inv_return (hashFn : String → Nat) {s : LibState} (hInv : Inv hashFn s)
    (book_id : String) : Inv hashFn (return_book hashFn book_id s).2 := by
  unfold return_book
  cases hget : htGet hashFn s.table book_id with
  | none => exact hInv
  | some r =>
    obtain ⟨hreg, hid⟩ := (hInv.tbl_reg book_id r).1 ((htGet_eq_some hInv.ht).1 hget)
    cases hbor : (bookAt s.heap r).is_borrowed with
    | false =>
      simp only [hbor, Bool.not_false, if_true]
      exact hInv
    | true =>
      simp only [hbor, Bool.not_true, Bool.false_eq_true, if_false]
      obtain ⟨j, hjmem⟩ := hInv.borrowed_bb r hreg hbor
      rw [hid] at hjmem
      have hdg : dictGet s.borrowed_books book_id = some j := by
        rw [dictGet_eq_bucketLookup]
        exact (bucketLookup_eq_some hInv.bb_nodup).2 hjmem
      rw [hdg]
      dsimp only
      obtain ⟨hjlt, hjopen, hjref_reg, hjref_id, hjref_bor⟩ := hInv.bb_open _ hjmem
      have hjr : (eventAt s.events j).bookRef = r :=
        hInv.id_unique hjref_reg hreg (by rw [hjref_id, hid])
      have hr_lt : r < s.heap.length := hInv.reg_lt r hreg
      set b' : Book := { bookAt s.heap r with
        is_borrowed := false, borrowed_by := none, borrow_date := none } with hb'
      have hAtSelf : bookAt (s.heap.set r b') r = b' := bookAt_set_self hr_lt b'
      have hAtOther : ∀ x, x ≠ r → bookAt (s.heap.set r b') x = bookAt s.heap x :=
        fun x hx => bookAt_set_ne (Ne.symm hx) b'
      have hbid : ∀ x, (bookAt (s.heap.set r b') x).book_id = (bookAt s.heap x).book_id := by
        intro x
        by_cases hx : x = r
        · subst hx
          rw [hAtSelf]
        · rw [hAtOther x hx]
      have hbbmem : ∀ k x, (k, x) ∈ dictDelete s.borrowed_books book_id ↔
          k ≠ book_id ∧ (k, x) ∈ s.borrowed_books := by
        intro k x
        rw [dictDelete_eq_bucketDelete]
        exact mem_bucketDelete hInv.bb_nodup
      have hkey_ne_j : ∀ k x, (k, x) ∈ s.borrowed_books → k ≠ book_id → x ≠ j := by
        intro k x hkx hkne hcontra
        subst hcontra
        have hxid := (hInv.bb_open _ hkx).2.2.2.1
        rw [hjr, hid] at hxid
        exact hkne hxid.symm
      have href_ne_r : ∀ k x, (k, x) ∈ s.borrowed_books → k ≠ book_id →
          (eventAt s.events x).bookRef ≠ r := by
        intro k x hkx hkne hcontra
        have hxid := (hInv.bb_open _ hkx).2.2.2.1
        rw [hcontra, hid] at hxid
        exact hkne hxid.symm
      refine ⟨?_, ?_, hInv.ht, ?_, ?_, ?_, ?_, ?_, ?_⟩
      · -- reg_lt
        intro x hx
        rw [List.length_set]
        exact hInv.reg_lt x hx
      · -- ids_nodup
        have hmap : s.registry.map (fun x => (bookAt (s.heap.set r b') x).book_id) =
            s.registry.map (fun x => (bookAt s.heap x).book_id) :=
          List.map_congr_left (fun x _ => hbid x)
        rw [hmap]
        exact hInv.ids_nodup
      · -- tbl_reg
        intro k x
        rw [hInv.tbl_reg k x]
        constructor
        · rintro ⟨hxreg, hxid⟩
          exact ⟨hxreg, by rw [hbid x, hxid]⟩
        · rintro ⟨hxreg, hxid⟩
          rw [hbid x] at hxid
          exact ⟨hxreg, hxid⟩
      · -- bb_open
        intro p hp
        rw [hbbmem p.1 p.2] at hp
        obtain ⟨hkne, hpmem⟩ := hp
        obtain ⟨hplt, hpopen, hpreg, hpid, hpbor⟩ := hInv.bb_open p hpmem
        have hpj : p.2 ≠ j := hkey_ne_j p.1 p.2 hpmem hkne
        have hpr : (eventAt s.events p.2).bookRef ≠ r := href_ne_r p.1 p.2 hpmem hkne
        rw [eventAt_set_ne (Ne.symm hpj)]
        refine ⟨by rw [List.length_set]; exact hplt, hpopen, hpreg, ?_, ?_⟩
        · rw [hAtOther _ hpr, hpid]
        · rw [hAtOther _ hpr, hpbor]
      · -- bb_nodup
        rw [dictDelete_eq_bucketDelete]
        exact keysNodup_bucketDelete hInv.bb_nodup book_id
      · -- borrowed_bb
        intro x hx hborx
        have hxr : x ≠ r := by
          rintro rfl
          rw [hAtSelf, hb'] at hborx
          exact Bool.false_ne_true hborx
        rw [hAtOther x hxr] at hborx
        obtain ⟨ev, hev⟩ := hInv.borrowed_bb x hx hborx
        have hkne : (bookAt s.heap x).book_id ≠ book_id := by
          intro hcontra
          exact hxr (hInv.id_unique hx hreg (by rw [hcontra, hid]))
        refine ⟨ev, ?_⟩
        rw [hAtOther x hxr]
        exact (hbbmem _ _).2 ⟨hkne, hev⟩
      · -- open_bb
        intro j' hj' hopen
        rw [List.length_set] at hj'
        by_cases hjj : j' = j
        · subst hjj
          rw [eventAt_set_self hjlt] at hopen
          exact absurd hopen (by simp)
        · rw [eventAt_set_ne (Ne.symm hjj)] at hopen ⊢
          have hmem' := hInv.open_bb j' hj' hopen
          have hkne : (bookAt s.heap (eventAt s.events j').bookRef).book_id ≠ book_id := by
            intro hcontra
            rw [hcontra] at hmem'
            exact hjj (assoc_val_unique hInv.bb_nodup hmem' hjmem)
          have hrne : (eventAt s.events j').bookRef ≠ r := by
            intro hcontra
            rw [hcontra, hid] at hkne
            exact hkne rfl
          rw [hAtOther _ hrne]
          exact (hbbmem _ _).2 ⟨hkne, hmem'⟩
      · -- hist
        rw [List.length_set]
        exact hInv.hist

theorem inv_display (hashFn : String → Nat) {s : LibState} (hInv : Inv hashFn s)
    (sort_by : String) : Inv hashFn (display_all_books sort_by s) := by
  have key : ∀ reg' : List Nat, reg'.Perm s.registry →
      Inv hashFn { s with registry := reg' } := by
    intro reg' hperm
    have hmem : ∀ x, x ∈ reg' ↔ x ∈ s.registry := fun x => hperm.mem_iff
    refine ⟨?_, ?_, hInv.ht, ?_, ?_, hInv.bb_nodup, ?_, ?_, hInv.hist⟩
    · intro x hx
      exact hInv.reg_lt x ((hmem x).1 hx)
    · exact (hperm.map _).nodup_iff.2 hInv.ids_nodup
    · intro k x
      rw [hInv.tbl_reg k x, hmem x]
    · intro p hp
      obtain ⟨hplt, hpopen, hpreg, hpid, hpbor⟩ := hInv.bb_open p hp
      exact ⟨hplt, hpopen, (hmem _).2 hpreg, hpid, hpbor⟩
    · intro x hx
      exact hInv.borrowed_bb x ((hmem x).1 hx)
    · exact hInv.open_bb
  unfold display_all_books
  by_cases ht : sort_by.toLower = "title"
  · rw [if_pos ht]
    exact key _ (sortByTitle_perm s.heap s.registry)
  · rw [if_neg ht]
    by_cases ha : sort_by.toLower = "author"
    · rw [if_pos ha]
      exact key _ (sortByAuthor_perm s.heap s.registry)
    · rw [if_neg ha]
      exact hInv

theorem inv_step (hashFn : String → Nat) {s : LibState} (hInv : Inv hashFn s) (op : Op) :
    Inv hashFn (step hashFn op s) := by
  cases op with
  | add book_id title author year => exact inv_add hashFn hInv book_id title author year
  | remove book_id => exact inv_remove hashFn hInv book_id
  | borrow book_id borrower => exact inv_borrow hashFn hInv book_id borrower
  | ret book_id => exact inv_return hashFn hInv book_id
  | display sort_by => exact inv_display hashFn hInv sort_by

theorem inv_runFrom (hashFn : String → Nat) {s : LibState} (hInv : Inv hashFn s)
    (ops : List Op) : Inv hashFn (runFrom hashFn s ops) := by
  induction ops generalizing s with
  | nil => exact hInv
  | cons op rest ih => exact ih (inv_step hashFn hInv op)

/-- Every state reachable from the empty library satisfies the invariant. -/
theorem run_inv (hashFn : String → Nat) (ops : List Op) : Inv hashFn (run hashFn ops) :=
  inv_runFrom hashFn (inv_empty hashFn) ops

end CodeShelf

namespace CodeShelf

/-- Under the invariant, the hash-table lookup agrees with the linear
registry scan, including on which object reference it returns. -/
theorem Inv.search_eq {hashFn : String → Nat} {s : LibState} (hInv : Inv hashFn s)
    (book_id : String) :
    htGet hashFn s.table book_id = llSearchById s.heap s.registry book_id := by
  cases hfind : llSearchById s.heap s.registry book_id with
  | some r =>
    exact (htGet_eq_some hInv.ht).2
      ((hInv.tbl_reg _ _).2 ⟨llSearchById_mem hfind, llSearchById_id hfind⟩)
  | none =>
    have hno := llSearchById_eq_none.1 hfind
    refine htGet_eq_none.2 (fun r hmem => ?_)
    obtain ⟨hreg, hid⟩ := (hInv.tbl_reg _ _).1 hmem
    exact hno r hreg hid

theorem eraseTable_eq_iff {s s' : LibState} : eraseTable s = eraseTable s' ↔
    (s.heap = s'.heap ∧ s.registry = s'.registry ∧ s.events = s'.events ∧
     s.borrow_history = s'.borrow_history ∧ s.waitlist = s'.waitlist ∧
     s.borrowed_books = s'.borrowed_books ∧ s.clock = s'.clock) := by
  cases s
  cases s'
  simp [eraseTable]

theorem step_eraseTable (f g : String → Nat) {s s' : LibState}
    (hs : Inv f s) (hs' : Inv g s') (heq : eraseTable s = eraseTable s') (op : Op) :
    eraseTable (step f op s) = eraseTable (step g op s') := by
  obtain ⟨hH, hR, hE, hB, hW, hBB, hC⟩ := eraseTable_eq_iff.1 heq
  cases op with
  | add book_id title author year =>
    have hsearch : llSearchById s'.heap s'.registry book_id =
        llSearchById s.heap s.registry book_id := by rw [hH, hR]
    simp only [step, add_book, hsearch]
    cases hc : llSearchById s.heap s.registry book_id with
    | some r => exact heq
    | none =>
      rw [eraseTable_eq_iff]
      refine ⟨?_, ?_, hE, hB, hW, hBB, hC⟩
      · rw [hH]
      · rw [hH, hR]
  | remove book_id =>
    have hsearch : llSearchById s'.heap s'.registry book_id =
        llSearchById s.heap s.registry book_id := by rw [hH, hR]
    simp only [step, remove_book, hsearch]
    cases hc : llSearchById s.heap s.registry book_id with
    | none => exact heq
    | some r =>
      rw [← hH]
      cases hbor : (bookAt s.heap r).is_borrowed with
      | true => simpa [hbor] using heq
      | false =>
        simp only [hbor, Bool.false_eq_true, if_false]
        rw [eraseTable_eq_iff]
        exact ⟨rfl, by rw [hR], hE, hB, hW, hBB, hC⟩
  | borrow book_id borrower =>
    have hsearch : htGet g s'.table book_id = htGet f s.table book_id := by
      rw [hs.search_eq, hs'.search_eq, hH, hR]
    simp only [step, borrow_book, hsearch]
    cases hc : htGet f s.table book_id with
    | none => exact heq
    | some r =>
      rw [← hH]
      cases hbor : (bookAt s.heap r).is_borrowed with
      | true =>
        simp only [hbor, if_true]
        rw [eraseTable_eq_iff]
        exact ⟨rfl, hR, hE, hB, by rw [hW, hC], hBB, by rw [hC]⟩
      | false =>
        simp only [hbor, Bool.false_eq_true, if_false]
        rw [eraseTable_eq_iff]
        exact ⟨by rw [hC], hR, by rw [hE, hC], by rw [hB, hE], hW, by rw [hBB, hE],
          by rw [hC]⟩
  | ret book_id =>
    have hsearch : htGet g s'.table book_id = htGet f s.table book_id := by
      rw [hs.search_eq, hs'.search_eq, hH, hR]
    simp only [step, return_book, hsearch]
    cases hc : htGet f s.table book_id with
    | none => exact heq
    | some r =>
      rw [← hH]
      cases hbor : (bookAt s.heap r).is_borrowed with
      | false =>
        simp only [hbor, Bool.not_false, if_true]
        exact heq
      | true =>
        simp only [hbor, Bool.not_true, Bool.false_eq_true, if_false]
        rw [eraseTable_eq_iff]
        refine ⟨rfl, hR, ?_, hB, by rw [hW], ?_, by rw [hC]⟩
        · rw [hBB, hE, hC]
        · rw [hBB, hE, hC]
  | display sort_by =>
    simp only [step, display_all_books]
    by_cases hts : sort_by.toLower = "title"
    · rw [if_pos hts, if_pos hts, eraseTable_eq_iff]
      exact ⟨hH, by rw [hH, hR], hE, hB, hW, hBB, hC⟩
    · rw [if_neg hts, if_neg hts]
      by_cases has : sort_by.toLower = "author"
      · rw [if_pos has, if_pos has, eraseTable_eq_iff]
        exact ⟨hH, by rw [hH, hR], hE, hB, hW, hBB, hC⟩
      · rw [if_neg has, if_neg has]
        exact heq

theorem runFrom_eraseTable (f g : String → Nat) {s s' : LibState}
    (hs : Inv f s) (hs' : Inv g s') (heq : eraseTable s = eraseTable s') (ops : List Op) :
    eraseTable (runFrom f s ops) = eraseTable (runFrom g s' ops) := by
  induction ops generalizing s s' with
  | nil => exact heq
  | cons op rest ih =>
    exact ih (inv_step f hs op) (inv_step g hs' op) (step_eraseTable f g hs hs' heq op)

/-- All state components other than the hash table are independent of the
hash function. -/
theorem run_eraseTable (f g : String → Nat) (ops : List Op) :
    eraseTable (run f ops) = eraseTable (run g ops) :=
  runFrom_eraseTable f g (inv_empty f) (inv_empty g) rfl ops

end CodeShelf

/-! ## Claim theorems -/

namespace CodeShelf

theorem countP_eq_one_of_unique {α : Type} {p : α → Bool} {l : List α} (hnd : l.Nodup)
    {a : α} (ha : a ∈ l) (hpa : p a = true) (huniq : ∀ b ∈ l, p b = true → b = a) :
    l.countP p = 1 := by
  induction l with
  | nil => cases ha
  | cons x rest ih =>
    rw [List.nodup_cons] at hnd
    rcases List.mem_cons.1 ha with rfl | ha'
    · rw [List.countP_cons_of_pos _ _ hpa]
      have hzero : rest.countP p = 0 :=
        List.countP_eq_zero.2
          (fun b hb hpb => absurd (huniq b (List.mem_cons_of_mem _ hb) hpb ▸ hb) hnd.1)
      rw [hzero]
    · have hxa : x ≠ a := fun hcontra => hnd.1 (hcontra ▸ ha')
      have hpx : ¬p x = true := fun hpx => hxa (huniq x (List.mem_cons_self _ _) hpx)
      rw [List.countP_cons_of_neg _ _ hpx]
      exact ih hnd.2 ha' (fun b hb hpb => huniq b (List.mem_cons_of_mem _ hb) hpb)

/-- C1: for every sequence of engine operations starting from the empty
library, after each call the hash table retrieves exactly the ids reachable
in the linked-list registry, mapping each id to the very same `Book` object
(the same heap reference), and the registry contains no duplicate ids. -/
theorem dual_structure_consistency (hashFn : String → Nat) (ops : List Op) :
    (∀ book_id r, htGet hashFn (run hashFn ops).table book_id = some r ↔
       (r ∈ (run hashFn ops).registry ∧
        (bookAt (run hashFn ops).heap r).book_id = book_id)) ∧
    ((run hashFn ops).registry.map
       (fun r => (bookAt (run hashFn ops).heap r).book_id)).Nodup := by
  have hInv := run_inv hashFn ops
  refine ⟨fun book_id r => ?_, hInv.ids_nodup⟩
  rw [htGet_eq_some hInv.ht]
  exact hInv.tbl_reg book_id r

/-- C4: in every reachable state, a registry record's `is_borrowed` flag is
true iff exactly one `BorrowRecord` in the borrow history for that record's
id has `return_date` unset, and an available record has none. -/
theorem open_loan_invariant (hashFn : String → Nat) (ops : List Op) (r : Nat)
    (hmem : r ∈ (run hashFn ops).registry) :
    openEventsFor (run hashFn ops) ((bookAt (run hashFn ops).heap r).book_id) =
      if (bookAt (run hashFn ops).heap r).is_borrowed then 1 else 0 := by
  have hInv := run_inv hashFn ops
  unfold openEventsFor
  rw [hInv.hist]
  have hpred : ∀ j, ((eventAt (run hashFn ops).events j).return_date == none &&
      ((bookAt (run hashFn ops).heap (eventAt (run hashFn ops).events j).bookRef).book_id ==
        (bookAt (run hashFn ops).heap r).book_id)) = true ↔
      ((eventAt (run hashFn ops).events j).return_date = none ∧
       (bookAt (run hashFn ops).heap (eventAt (run hashFn ops).events j).bookRef).book_id =
         (bookAt (run hashFn ops).heap r).book_id) := by
    intro j
    simp
  cases hbor : (bookAt (run hashFn ops).heap r).is_borrowed with
  | true =>
    rw [if_pos rfl]
    obtain ⟨e, he⟩ := hInv.borrowed_bb r hmem hbor
    obtain ⟨helt, heopen, -, heid, -⟩ := hInv.bb_open _ he
    refine countP_eq_one_of_unique (List.nodup_range _) (List.mem_range.2 helt) ?_ ?_
    · rw [hpred e]
      exact ⟨heopen, heid⟩
    · intro j hj hpj
      rw [hpred j] at hpj
      obtain ⟨hjopen, hjid⟩ := hpj
      have hjmem := hInv.open_bb j (List.mem_range.1 hj) hjopen
      rw [hjid] at hjmem
      exact assoc_val_unique hInv.bb_nodup hjmem he
  | false =>
    rw [if_neg (by simp)]
    refine List.countP_eq_zero.2 (fun j hj hpj => ?_)
    rw [hpred j] at hpj
    obtain ⟨hjopen, hjid⟩ := hpj
    have hjmem := hInv.open_bb j (List.mem_range.1 hj) hjopen
    obtain ⟨-, -, hjreg, -, hjbor⟩ := hInv.bb_open _ hjmem
    have : (eventAt (run hashFn ops).events j).bookRef = r :=
      hInv.id_unique hjreg hmem hjid
    rw [this, hbor] at hjbor
    exact Bool.false_ne_true hjbor

theorem open_loan_invariant_witness :
    0 ∈ (run hashFn0 [Op.add "A" "t" "a" 2000, Op.borrow "A" "u"]).registry ∧
    openEventsFor (run hashFn0 [Op.add "A" "t" "a" 2000, Op.borrow "A" "u"])
        ((bookAt (run hashFn0 [Op.add "A" "t" "a" 2000, Op.borrow "A" "u"]).heap 0).book_id) =
      if (bookAt (run hashFn0 [Op.add "A" "t" "a" 2000, Op.borrow "A" "u"]).heap
          0).is_borrowed then 1 else 0 :=
  ⟨by decide,
   open_loan_invariant hashFn0 [Op.add "A" "t" "a" 2000, Op.borrow "A" "u"] 0 (by decide)⟩

/-- C10: in every reachable state, the hash-table lookup used by
`CodeShelfLibrary.search_by_id` returns the same result (the same `Book`
reference, or absent) as the linear scan `LinkedList.search_by_id` of the
registry. -/
theorem lookup_refinement (hashFn : String → Nat) (ops : List Op) (book_id : String) :
    search_by_id hashFn (run hashFn ops) book_id =
      llSearchById (run hashFn ops).heap (run hashFn ops).registry book_id :=
  (run_inv hashFn ops).search_eq book_id

/-- C2: the waitlist scan of `return_book` removes exactly the first
queue entry whose `record_id` matches the returned id, preserving the
relative order of every other entry; with no match the queue is unchanged
(so at most one waiting request is consumed per call). -/
theorem waitlist_resolution :
    (∀ (book_id : String) (l₁ : List WaitlistEntry) (e : WaitlistEntry)
       (l₂ : List WaitlistEntry),
       (∀ x ∈ l₁, x.book_id ≠ book_id) → e.book_id = book_id →
       scanLoop book_id (l₁ ++ e :: l₂) none [] = (some e, l₁ ++ l₂)) ∧
    (∀ (book_id : String) (q : List WaitlistEntry),
       (∀ x ∈ q, x.book_id ≠ book_id) →
       scanLoop book_id q none [] = (none, q)) := by
  constructor
  · intro book_id l₁ e l₂ hno he
    rw [scanLoop_first_match book_id l₁ e l₂ [] hno he, List.nil_append]
  · intro book_id q hno
    rw [scanLoop_no_match book_id q [] hno, List.nil_append]

theorem waitlist_resolution_witness :
    ((∀ x ∈ ([] : List WaitlistEntry), x.book_id ≠ "A") ∧
     (⟨"A", "u1", 0⟩ : WaitlistEntry).book_id = "A" ∧
     scanLoop "A" ([] ++ (⟨"A", "u1", 0⟩ : WaitlistEntry) ::
         [⟨"B", "u2", 1⟩, ⟨"A", "u3", 2⟩]) none [] =
       (some ⟨"A", "u1", 0⟩, [] ++ [⟨"B", "u2", 1⟩, ⟨"A", "u3", 2⟩])) ∧
    ((∀ x ∈ [(⟨"B", "u2", 1⟩ : WaitlistEntry)], x.book_id ≠ "C") ∧
     scanLoop "C" [⟨"B", "u2", 1⟩] none [] = (none, [⟨"B", "u2", 1⟩])) :=
  ⟨⟨by decide, rfl,
    waitlist_resolution.1 "A" [] ⟨"A", "u1", 0⟩ [⟨"B", "u2", 1⟩, ⟨"A", "u3", 2⟩]
      (by decide) rfl⟩,
   ⟨by decide,
    waitlist_resolution.2 "C" [⟨"B", "u2", 1⟩] (by decide)⟩⟩

end CodeShelf

namespace CodeShelf

/-- C5: when a record with the requested id already exists in the registry,
`add_book` returns failure and leaves the entire state (registry, hash
table, history, waitlist, open-loan table, heap, clock) unchanged. -/
theorem duplicate_add_rejected (hashFn : String → Nat) (s : LibState)
    (book_id title author : String) (year : Int) (r : Nat)
    (hfind : llSearchById s.heap s.registry book_id = some r) :
    add_book hashFn book_id title author year s = (false, s) := by
  unfold add_book
  rw [hfind]

theorem duplicate_add_rejected_witness :
    llSearchById (run hashFn0 [Op.add "X" "t" "a" 1]).heap
        (run hashFn0 [Op.add "X" "t" "a" 1]).registry "X" = some 0 ∧
    add_book hashFn0 "X" "t2" "a2" 2 (run hashFn0 [Op.add "X" "t" "a" 1]) =
      (false, run hashFn0 [Op.add "X" "t" "a" 1]) :=
  ⟨by decide,
   duplicate_add_rejected hashFn0 (run hashFn0 [Op.add "X" "t" "a" 1]) "X" "t2" "a2" 2 0
     (by decide)⟩

/-- C6: in every reachable state, `remove_book` fails without mutating any
state when the id is absent, and fails without mutating any state when the
record is borrowed; in the latter case the record stays present in both
the registry and the hash table (still the same reference) and stays
borrowed, since the state is returned unchanged. -/
theorem remove_failure_atomic (hashFn : String → Nat) (ops : List Op) (book_id : String) :
    (llSearchById (run hashFn ops).heap (run hashFn ops).registry book_id = none →
       remove_book hashFn book_id (run hashFn ops) = (false, run hashFn ops)) ∧
    (∀ r, llSearchById (run hashFn ops).heap (run hashFn ops).registry book_id = some r →
       (bookAt (run hashFn ops).heap r).is_borrowed = true →
       remove_book hashFn book_id (run hashFn ops) = (false, run hashFn ops) ∧
       r ∈ (run hashFn ops).registry ∧
       htGet hashFn (run hashFn ops).table book_id = some r) := by
  constructor
  · intro hnone
    unfold remove_book
    rw [hnone]
  · intro r hfind hbor
    refine ⟨?_, llSearchById_mem hfind, ?_⟩
    · unfold remove_book
      simp only [hfind]
      rw [if_pos hbor]
    · rw [(run_inv hashFn ops).search_eq book_id]
      exact hfind

theorem remove_failure_atomic_witness :
    (llSearchById (run hashFn0 [Op.add "X" "t" "a" 1, Op.borrow "X" "u"]).heap
        (run hashFn0 [Op.add "X" "t" "a" 1, Op.borrow "X" "u"]).registry "Y" = none ∧
     remove_book hashFn0 "Y" (run hashFn0 [Op.add "X" "t" "a" 1, Op.borrow "X" "u"]) =
       (false, run hashFn0 [Op.add "X" "t" "a" 1, Op.borrow "X" "u"])) ∧
    (llSearchById (run hashFn0 [Op.add "X" "t" "a" 1, Op.borrow "X" "u"]).heap
        (run hashFn0 [Op.add "X" "t" "a" 1, Op.borrow "X" "u"]).registry "X" = some 0 ∧
     (bookAt (run hashFn0 [Op.add "X" "t" "a" 1, Op.borrow "X" "u"]).heap 0).is_borrowed =
       true ∧
     remove_book hashFn0 "X" (run hashFn0 [Op.add "X" "t" "a" 1, Op.borrow "X" "u"]) =
       (false, run hashFn0 [Op.add "X" "t" "a" 1, Op.borrow "X" "u"]) ∧
     0 ∈ (run hashFn0 [Op.add "X" "t" "a" 1, Op.borrow "X" "u"]).registry ∧
     htGet hashFn0 (run hashFn0 [Op.add "X" "t" "a" 1, Op.borrow "X" "u"]).table "X" =
       some 0) :=
  ⟨⟨by decide,
    (remove_failure_atomic hashFn0 [Op.add "X" "t" "a" 1, Op.borrow "X" "u"] "Y").1
      (by decide)⟩,
   ⟨by decide, by decide,
    (remove_failure_atomic hashFn0 [Op.add "X" "t" "a" 1, Op.borrow "X" "u"] "X").2 0
      (by decide) (by decide)⟩⟩

/-- C7: borrowing an already-borrowed record leaves the heap (hence the
record's state, borrower and borrow date), registry, hash table, borrow
history, event heap and open-loan table unchanged, appends exactly one
`WaitlistEntry` for the id and requester at the back of the queue, and
returns the non-success value. -/
theorem borrow_busy_waitlists (hashFn : String → Nat) (s : LibState)
    (book_id borrower : String) (r : Nat)
    (hget : htGet hashFn s.table book_id = some r)
    (hbor : (bookAt s.heap r).is_borrowed = true) :
    borrow_book hashFn book_id borrower s =
      (false, { s with
        waitlist := s.waitlist ++ [⟨book_id, borrower, s.clock⟩],
        clock := s.clock + 1 }) ∧
    (borrow_book hashFn book_id borrower s).2.waitlist.length = s.waitlist.length + 1 ∧
    (borrow_book hashFn book_id borrower s).2.heap = s.heap ∧
    (borrow_book hashFn book_id borrower s).2.borrow_history = s.borrow_history ∧
    (borrow_book hashFn book_id borrower s).2.events = s.events ∧
    (borrow_book hashFn book_id borrower s).2.registry = s.registry ∧
    (borrow_book hashFn book_id borrower s).2.table = s.table ∧
    (borrow_book hashFn book_id borrower s).2.borrowed_books = s.borrowed_books := by
  have hmain : borrow_book hashFn book_id borrower s =
      (false, { s with
        waitlist := s.waitlist ++ [⟨book_id, borrower, s.clock⟩],
        clock := s.clock + 1 }) := by
    unfold borrow_book
    simp only [hget]
    rw [if_pos hbor]
  refine ⟨hmain, ?_, ?_, ?_, ?_, ?_, ?_, ?_⟩ <;> simp [hmain]

theorem borrow_busy_waitlists_witness :
    htGet hashFn0 (run hashFn0 [Op.add "X" "t" "a" 1, Op.borrow "X" "u"]).table "X" =
      some 0 ∧
    (bookAt (run hashFn0 [Op.add "X" "t" "a" 1, Op.borrow "X" "u"]).heap 0).is_borrowed =
      true ∧
    (borrow_book hashFn0 "X" "w"
        (run hashFn0 [Op.add "X" "t" "a" 1, Op.borrow "X" "u"])).2.waitlist.length =
      (run hashFn0 [Op.add "X" "t" "a" 1, Op.borrow "X" "u"]).waitlist.length + 1 :=
  ⟨by decide, by decide,
   (borrow_busy_waitlists hashFn0 (run hashFn0 [Op.add "X" "t" "a" 1, Op.borrow "X" "u"])
     "X" "w" 0 (by decide) (by decide)).2.1⟩

end CodeShelf

namespace CodeShelf

theorem mergeSortKey_pairwise (key : Nat → String) (reg : List Nat) :
    (if reg.length ≤ 1 then reg
     else reg.mergeSort (fun a b => decide (key a ≤ key b))).Pairwise
      (fun a b => key a ≤ key b) := by
  by_cases hlen : reg.length ≤ 1
  · rw [if_pos hlen]
    cases reg with
    | nil => exact List.Pairwise.nil
    | cons a rest =>
      cases rest with
      | nil => exact List.pairwise_singleton _ _
      | cons b r2 => simp at hlen
  · rw [if_neg hlen]
    have htrans : ∀ a b c : Nat, decide (key a ≤ key b) = true →
        decide (key b ≤ key c) = true → decide (key a ≤ key c) = true := by
      intro a b c hab hbc
      rw [decide_eq_true_eq] at *
      exact le_trans hab hbc
    have htotal : ∀ a b : Nat,
        (decide (key a ≤ key b) || decide (key b ≤ key a)) = true := by
      intro a b
      simp only [Bool.or_eq_true, decide_eq_true_eq]
      exact le_total _ _
    have hp := List.sorted_mergeSort htrans htotal reg
    exact hp.imp (fun hab => of_decide_eq_true hab)

theorem mergeSortKey_stable (key : Nat → String) (reg : List Nat) (r₁ r₂ : Nat)
    (hkey : key r₁ = key r₂) (hsub : List.Sublist [r₁, r₂] reg) :
    List.Sublist [r₁, r₂]
      (if reg.length ≤ 1 then reg
       else reg.mergeSort (fun a b => decide (key a ≤ key b))) := by
  by_cases hlen : reg.length ≤ 1
  · rw [if_pos hlen]
    exact hsub
  · rw [if_neg hlen]
    have htrans : ∀ a b c : Nat, decide (key a ≤ key b) = true →
        decide (key b ≤ key c) = true → decide (key a ≤ key c) = true := by
      intro a b c hab hbc
      rw [decide_eq_true_eq] at *
      exact le_trans hab hbc
    have htotal : ∀ a b : Nat,
        (decide (key a ≤ key b) || decide (key b ≤ key a)) = true := by
      intro a b
      simp only [Bool.or_eq_true, decide_eq_true_eq]
      exact le_total _ _
    exact List.pair_sublist_mergeSort htrans htotal (decide_eq_true (le_of_eq hkey)) hsub

/-- C8: sorting by title (likewise by author) permutes the registry into
non-decreasing order of the case-folded key, and any two records with equal
case-folded keys keep their prior relative order (stability). -/
theorem sort_stable_case_insensitive :
    (∀ (h : List Book) (reg : List Nat),
       (sortByTitle h reg).Pairwise (fun r₁ r₂ => titleKey h r₁ ≤ titleKey h r₂)) ∧
    (∀ (h : List Book) (reg : List Nat) (r₁ r₂ : Nat),
       titleKey h r₁ = titleKey h r₂ → List.Sublist [r₁, r₂] reg →
       List.Sublist [r₁, r₂] (sortByTitle h reg)) ∧
    (∀ (h : List Book) (reg : List Nat), (sortByTitle h reg).Perm reg) ∧
    (∀ (h : List Book) (reg : List Nat),
       (sortByAuthor h reg).Pairwise (fun r₁ r₂ => authorKey h r₁ ≤ authorKey h r₂)) ∧
    (∀ (h : List Book) (reg : List Nat) (r₁ r₂ : Nat),
       authorKey h r₁ = authorKey h r₂ → List.Sublist [r₁, r₂] reg →
       List.Sublist [r₁, r₂] (sortByAuthor h reg)) ∧
    (∀ (h : List Book) (reg : List Nat), (sortByAuthor h reg).Perm reg) :=
  ⟨fun h reg => mergeSortKey_pairwise (titleKey h) reg,
   fun h reg r₁ r₂ hkey hsub => mergeSortKey_stable (titleKey h) reg r₁ r₂ hkey hsub,
   sortByTitle_perm,
   fun h reg => mergeSortKey_pairwise (authorKey h) reg,
   fun h reg r₁ r₂ hkey hsub => mergeSortKey_stable (authorKey h) reg r₁ r₂ hkey hsub,
   sortByAuthor_perm⟩

theorem sort_stable_case_insensitive_witness :
    (titleKey sortWitnessHeap 0 = titleKey sortWitnessHeap 1 ∧
     List.Sublist [0, 1] [0, 1] ∧
     List.Sublist [0, 1] (sortByTitle sortWitnessHeap [0, 1])) ∧
    (authorKey sortWitnessHeap 0 = authorKey sortWitnessHeap 1 ∧
     List.Sublist [0, 1] [0, 1] ∧
     List.Sublist [0, 1] (sortByAuthor sortWitnessHeap [0, 1])) :=
  ⟨⟨rfl, List.Sublist.refl _,
    sort_stable_case_insensitive.2.1 sortWitnessHeap [0, 1] 0 1 rfl
      (List.Sublist.refl _)⟩,
   ⟨rfl, List.Sublist.refl _,
    sort_stable_case_insensitive.2.2.2.2.1 sortWitnessHeap [0, 1] 0 1 rfl
      (List.Sublist.refl _)⟩⟩

end CodeShelf

namespace CodeShelf

/-- C3 fails as stated: `borrow_book` returns the same value (`False`) when
the id does not exist and when the record exists but is already borrowed.
Concretely, after adding "A" and borrowing it, borrowing the missing id "B"
and borrowing the busy id "A" return equal values. -/
theorem borrow_outcomes_counterexample :
    search_by_id hashFn0 (run hashFn0 c3ops) "B" = none ∧
    search_by_id hashFn0 (run hashFn0 c3ops) "A" = some 0 ∧
    (bookAt (run hashFn0 c3ops).heap 0).is_borrowed = true ∧
    (borrow_book hashFn0 "B" "u2" (run hashFn0 c3ops)).1 =
      (borrow_book hashFn0 "A" "u3" (run hashFn0 c3ops)).1 := by
  decide

/-- C3 amended: `borrow_book` returns `False` in both the not-found and the
already-borrowed case; the return value alone does not distinguish them.
The caller can distinguish the two outcomes by a follow-up `search_by_id`
(as the source's menu layer does): after the call it returns absent exactly
in the not-found case, and in the waitlisted case it returns the same still
borrowed record. -/
theorem borrow_outcomes_amended (hashFn : String → Nat) (s : LibState)
    (book_id who : String) :
    (htGet hashFn s.table book_id = none →
       borrow_book hashFn book_id who s = (false, s) ∧
       search_by_id hashFn (borrow_book hashFn book_id who s).2 book_id = none) ∧
    (∀ r, htGet hashFn s.table book_id = some r →
       (bookAt s.heap r).is_borrowed = true →
       (borrow_book hashFn book_id who s).1 = false ∧
       search_by_id hashFn (borrow_book hashFn book_id who s).2 book_id = some r ∧
       (bookAt (borrow_book hashFn book_id who s).2.heap r).is_borrowed = true) := by
  constructor
  · intro hnone
    have hmain : borrow_book hashFn book_id who s = (false, s) := by
      unfold borrow_book
      rw [hnone]
    rw [hmain]
    exact ⟨rfl, hnone⟩
  · intro r hget hbor
    have hmain : borrow_book hashFn book_id who s =
        (false, { s with
          waitlist := s.waitlist ++ [⟨book_id, who, s.clock⟩],
          clock := s.clock + 1 }) := by
      unfold borrow_book
      simp only [hget]
      rw [if_pos hbor]
    rw [hmain]
    exact ⟨rfl, hget, hbor⟩

theorem borrow_outcomes_amended_witness :
    (htGet hashFn0 (run hashFn0 c3ops).table "B" = none ∧
     borrow_book hashFn0 "B" "u2" (run hashFn0 c3ops) = (false, run hashFn0 c3ops)) ∧
    (htGet hashFn0 (run hashFn0 c3ops).table "A" = some 0 ∧
     (bookAt (run hashFn0 c3ops).heap 0).is_borrowed = true ∧
     (borrow_book hashFn0 "A" "u3" (run hashFn0 c3ops)).1 = false) :=
  ⟨⟨by decide,
    ((borrow_outcomes_amended hashFn0 (run hashFn0 c3ops) "B" "u2").1 (by decide)).1⟩,
   ⟨by decide, by decide,
    ((borrow_outcomes_amended hashFn0 (run hashFn0 c3ops) "A" "u3").2 0 (by decide)
      (by decide)).1⟩⟩

/-- C9 fails as stated: the snapshot is indeed the reverse of push order,
but after borrow(A), borrow(B), return(A) the *first* snapshot entry is
therefore B's still-open event (B's was pushed last), not A's closed one;
A's closed event comes second. -/
theorem history_snapshot_counterexample :
    (historySnapshot (run hashFn0 c9ops)).length = 2 ∧
    ((historySnapshot (run hashFn0 c9ops)).getD 0 defEvent).return_date = none ∧
    (bookAt (run hashFn0 c9ops).heap
      ((historySnapshot (run hashFn0 c9ops)).getD 0 defEvent).bookRef).book_id = "B" ∧
    ((historySnapshot (run hashFn0 c9ops)).getD 0 defEvent).borrower = "u2" ∧
    ((historySnapshot (run hashFn0 c9ops)).getD 1 defEvent).return_date ≠ none ∧
    (bookAt (run hashFn0 c9ops).heap
      ((historySnapshot (run hashFn0 c9ops)).getD 1 defEvent).bookRef).book_id = "A" := by
  decide

/-- C9 amended: the history snapshot lists borrow events most-recent-first,
i.e. it is the reverse of push (insertion) order; in particular after
borrow(A), borrow(B), return(A) — for any hash function — the snapshot has
two entries, the first is B's open event (return date unset, borrower u2)
and the second is A's closed event (return date set, borrower u1). -/
theorem history_snapshot_amended (hashFn : String → Nat) :
    (∀ s : LibState,
       historySnapshot s = (s.borrow_history.map (fun j => eventAt s.events j)).reverse) ∧
    (historySnapshot (run hashFn c9ops)).length = 2 ∧
    ((historySnapshot (run hashFn c9ops)).getD 0 defEvent).return_date = none ∧
    (bookAt (run hashFn c9ops).heap
      ((historySnapshot (run hashFn c9ops)).getD 0 defEvent).bookRef).book_id = "B" ∧
    ((historySnapshot (run hashFn c9ops)).getD 0 defEvent).borrower = "u2" ∧
    ((historySnapshot (run hashFn c9ops)).getD 1 defEvent).return_date ≠ none ∧
    (bookAt (run hashFn c9ops).heap
      ((historySnapshot (run hashFn c9ops)).getD 1 defEvent).bookRef).book_id = "A" ∧
    ((historySnapshot (run hashFn c9ops)).getD 1 defEvent).borrower = "u1" := by
  have htr := run_eraseTable hashFn hashFn0 c9ops
  obtain ⟨hH, -, hE, hB, -, -, -⟩ := eraseTable_eq_iff.1 htr
  have hsnap : historySnapshot (run hashFn c9ops) = historySnapshot (run hashFn0 c9ops) := by
    unfold historySnapshot
    rw [hE, hB]
  rw [hsnap, hH]
  exact ⟨fun s => rfl, by decide, by decide, by decide, by decide, by decide, by decide,
    by decide⟩

end CodeShelf
